import Mathlib

/-!
Verification of the notebook content-serialization adapter
(`VSCodeContentManager`) and the query-plan panel (`QueryPlan2View` /
`QueryPlan2`) of this repository.

The notebook converter implementation (`vscodeSerializationProvider.ts`) is
not part of the provided sources; only its unit tests are.  Its definitions
below are therefore modelled from the specification (spec.md sections 3, 4.1
and 4.2), cross-checked against the expected values hard-coded in the unit
tests.  The query-plan definitions are translated directly from
`src/sql/workbench/contrib/queryplan2/browser/queryPlan.ts`.

Byte buffers (`VSBuffer` on the host side) are modelled as lists of byte
values (`List Nat`, each entry meant to be `< 256`), and the UTF-8 codec used
by the converter (`VSBuffer.fromString` / buffer-to-string decoding) is
implemented concretely below, together with a proof that decoding inverts
encoding.  JSON-object metadata payloads that the adapter carries through
verbatim are modelled as association lists of strings.
-/

/-! ## UTF-8 codec -/

/-- Make a `Char` from a Unicode code point, failing on invalid scalars
(surrogates and values `≥ 0x110000`). -/
def mkChar (n : Nat) : Option Char :=
  if h : n.isValidChar then some (Char.ofNatAux n h) else none

/-- UTF-8 encoding of a single Unicode scalar value, as its list of bytes. -/
def utf8EncodeChar (c : Char) : List Nat :=
  let n := c.toNat
  if n < 128 then [n]
  else if n < 2048 then [192 + n / 64, 128 + n % 64]
  else if n < 65536 then [224 + n / 4096, 128 + n / 64 % 64, 128 + n % 64]
  else [240 + n / 262144, 128 + n / 4096 % 64, 128 + n / 64 % 64, 128 + n % 64]

/-- UTF-8 encoding of a sequence of characters. -/
def utf8EncodeList (cs : List Char) : List Nat :=
  cs.flatMap utf8EncodeChar

/-- UTF-8 encoding of a string, modelling `VSBuffer.fromString`. -/
def utf8EncodeText (s : String) : List Nat :=
  utf8EncodeList s.data

/-- Value carried by a UTF-8 continuation byte, failing when the byte is not
of the form `10xxxxxx`. -/
def contByte (b : Nat) : Option Nat :=
  if 128 ≤ b ∧ b < 192 then some (b - 128) else none

mutual

/-- UTF-8 decoding of a byte list into characters, failing on malformed
input.  The lead byte of each sequence selects how many continuation bytes
`utf8DecodeCont` still has to read. -/
def utf8DecodeList : List Nat → Option (List Char)
  | [] => some []
  | b :: bs =>
    if b < 128 then (mkChar b).bind fun c => (utf8DecodeList bs).map (c :: ·)
    else if b < 192 then none
    else if b < 224 then utf8DecodeCont 1 (b - 192) bs
    else if b < 240 then utf8DecodeCont 2 (b - 224) bs
    else if b < 248 then utf8DecodeCont 3 (b - 240) bs
    else none
termination_by bs => 2 * bs.length + 1

/-- Read `k` further continuation bytes into the accumulated code point
`acc`, then emit the character and continue decoding. -/
def utf8DecodeCont : Nat → Nat → List Nat → Option (List Char)
  | 0, acc, bs => (mkChar acc).bind fun c => (utf8DecodeList bs).map (c :: ·)
  | _ + 1, _, [] => none
  | k + 1, acc, b :: bs =>
    (contByte b).bind fun x => utf8DecodeCont k (acc * 64 + x) bs
termination_by _ _ bs => 2 * bs.length + 2

end

/-- Total UTF-8 decoding of a byte buffer into text, returning the empty
string on malformed input; models reading a `VSBuffer` as a string. -/
def utf8DecodeText (bs : List Nat) : String :=
  match utf8DecodeList bs with
  | some cs => String.mk cs
  | none => ""

theorem toNat_ofNatAux (n : Nat) (h : n.isValidChar) :
    (Char.ofNatAux n h).toNat = n := by
  simp [Char.ofNatAux, Char.toNat, UInt32.toNat]

theorem mkChar_toNat (c : Char) : mkChar c.toNat = some c := by
  have hv : Nat.isValidChar c.toNat := c.valid
  simp only [mkChar, dif_pos hv]
  congr 1

/-- Decoding a single UTF-8-encoded character followed by any tail decodes
the character and continues with the tail. -/
theorem utf8DecodeList_encodeChar_append (c : Char) (rest : List Nat) :
    utf8DecodeList (utf8EncodeChar c ++ rest) =
      (utf8DecodeList rest).map (c :: ·) := by
  have hv : Nat.isValidChar c.toNat := c.valid
  have hlt : c.toNat < 1114112 := by
    rcases hv with h | ⟨_, h⟩ <;> omega
  by_cases h1 : c.toNat < 128
  · have he : utf8EncodeChar c = [c.toNat] := by
      simp [utf8EncodeChar, h1]
    rw [he]
    simp [utf8DecodeList, h1, mkChar_toNat]
  · by_cases h2 : c.toNat < 2048
    · have he : utf8EncodeChar c =
          [192 + c.toNat / 64, 128 + c.toNat % 64] := by
        simp [utf8EncodeChar, h1, h2]
      rw [he]
      have hb0 : ¬(192 + c.toNat / 64 < 128) := by omega
      have hb0' : ¬(192 + c.toNat / 64 < 192) := by omega
      have hb0'' : 192 + c.toNat / 64 < 224 := by omega
      have hc1 : contByte (128 + c.toNat % 64) = some (c.toNat % 64) := by
        simp [contByte]; omega
      have hval : c.toNat / 64 * 64 + c.toNat % 64 = c.toNat := by omega
      simp [utf8DecodeList, utf8DecodeCont, hb0, hb0', hb0'', hc1, hval,
        mkChar_toNat]
    · by_cases h3 : c.toNat < 65536
      · have he : utf8EncodeChar c =
            [224 + c.toNat / 4096, 128 + c.toNat / 64 % 64,
             128 + c.toNat % 64] := by
          simp [utf8EncodeChar, h1, h2, h3]
        rw [he]
        have hb0 : ¬(224 + c.toNat / 4096 < 128) := by omega
        have hb0' : ¬(224 + c.toNat / 4096 < 192) := by omega
        have hb0'' : ¬(224 + c.toNat / 4096 < 224) := by omega
        have hb0''' : 224 + c.toNat / 4096 < 240 := by omega
        have hc1 : contByte (128 + c.toNat / 64 % 64) =
            some (c.toNat / 64 % 64) := by
          simp [contByte]; omega
        have hc2 : contByte (128 + c.toNat % 64) = some (c.toNat % 64) := by
          simp [contByte]; omega
        have hval : (c.toNat / 4096 * 64 + c.toNat / 64 % 64) * 64 +
            c.toNat % 64 = c.toNat := by
          omega
        simp [utf8DecodeList, utf8DecodeCont, hb0, hb0', hb0'', hb0''', hc1,
          hc2, hval, mkChar_toNat]
      · have he : utf8EncodeChar c =
            [240 + c.toNat / 262144, 128 + c.toNat / 4096 % 64,
             128 + c.toNat / 64 % 64, 128 + c.toNat % 64] := by
          simp [utf8EncodeChar, h1, h2, h3]
        rw [he]
        have hb0 : ¬(240 + c.toNat / 262144 < 128) := by omega
        have hb0' : ¬(240 + c.toNat / 262144 < 192) := by omega
        have hb0'' : ¬(240 + c.toNat / 262144 < 224) := by omega
        have hb0''' : ¬(240 + c.toNat / 262144 < 240) := by omega
        have hb0'''' : 240 + c.toNat / 262144 < 248 := by omega
        have hc1 : contByte (128 + c.toNat / 4096 % 64) =
            some (c.toNat / 4096 % 64) := by
          simp [contByte]; omega
        have hc2 : contByte (128 + c.toNat / 64 % 64) =
            some (c.toNat / 64 % 64) := by
          simp [contByte]; omega
        have hc3 : contByte (128 + c.toNat % 64) = some (c.toNat % 64) := by
          simp [contByte]; omega
        have hval : ((c.toNat / 262144 * 64 + c.toNat / 4096 % 64) * 64 +
            c.toNat / 64 % 64) * 64 + c.toNat % 64 = c.toNat := by
          omega
        simp [utf8DecodeList, utf8DecodeCont, hb0, hb0', hb0'', hb0''',
          hb0'''', hc1, hc2, hc3, hval, mkChar_toNat]

/-- UTF-8 decoding inverts UTF-8 encoding on character lists. -/
theorem utf8DecodeList_encodeList (cs : List Char) :
    utf8DecodeList (utf8EncodeList cs) = some cs := by
  induction cs with
  | nil => simp [utf8EncodeList, utf8DecodeList]
  | cons c cs ih =>
    have : utf8EncodeList (c :: cs) = utf8EncodeChar c ++ utf8EncodeList cs :=
      rfl
    rw [this, utf8DecodeList_encodeChar_append, ih]
    rfl

/-- UTF-8 decoding inverts UTF-8 encoding on strings. -/
theorem utf8DecodeText_encodeText (s : String) :
    utf8DecodeText (utf8EncodeText s) = s := by
  unfold utf8DecodeText utf8EncodeText
  rw [utf8DecodeList_encodeList]

/-! ## Notebook output data model

The converter implementation (`VSCodeContentManager` in
`vscodeSerializationProvider.ts`) is not among the provided sources; only its
unit tests are.  The structures and functions below are modelled from the
spec (sections 3, 4.1, 4.2) and checked against the expected values in the
tests.  Opaque JSON metadata payloads are modelled as association lists of
strings. -/

/-- A JSON-object payload carried through verbatim by the adapter. -/
abbrev JsonMap := List (String × String)

/-- Modelled from the spec: a Host (VS Code) output item,
`{ mime: string, data: byte-buffer }`. -/
structure NotebookCellOutputItem where
  mime : String
  data : List Nat
deriving DecidableEq

/-- Modelled from the spec: a Host (VS Code) cell output,
`{ id, items, metadata }`, where `metadata` may be absent. -/
structure NotebookCellOutput where
  id : String
  items : List NotebookCellOutputItem
  metadata : Option JsonMap
deriving DecidableEq

/-- Modelled from the spec: the App (ADS) cell-output tagged union,
discriminated by `output_type`. -/
inductive ICellOutput where
  | executeResult (id : String) (data : JsonMap) (metadata : Option JsonMap)
      (execution_count : Nat)
  | stream (id : String) (name : String) (text : List String)
  | error (id : String) (ename : String) (evalue : String)
      (traceback : Option (List String))
deriving DecidableEq

namespace ICellOutput

/-- The `id` field common to all App output variants. -/
def outId : ICellOutput → String
  | executeResult i _ _ _ => i
  | stream i _ _ => i
  | error i _ _ _ => i

/-- The `data` mapping of an `execute_result` (empty for other variants). -/
def outData : ICellOutput → JsonMap
  | executeResult _ d _ _ => d
  | _ => []

end ICellOutput

namespace VSCodeContentManager

/-- Modelled from the spec (section 4.1, host→app): one Host Output becomes a
single-element sequence holding one `execute_result` whose `data` has one
entry per item, keyed by MIME type, valued by the UTF-8 decoding of the
item's bytes; `metadata` is copied through, defaulting to an empty mapping;
`execution_count` is the supplied counter. -/
def convertToADSCellOutput (cellOutput : NotebookCellOutput)
    (executionCount : Nat) : List ICellOutput :=
  [ICellOutput.executeResult cellOutput.id
    (cellOutput.items.map fun it => (it.mime, utf8DecodeText it.data))
    (some (cellOutput.metadata.getD []))
    executionCount]

/-- Modelled from the spec (section 4.1, `stream` case): the `text` lines are
concatenated with no separator. -/
def streamText (text : List String) : String :=
  String.join text

/-- Modelled from the spec (section 4.1, `error` case): the rendered text is
`"<ename>: <evalue>"` followed, iff `traceback` is present and non-empty, by
the newline-joined traceback lines. -/
def errorText (ename evalue : String) (traceback : Option (List String)) :
    String :=
  match traceback with
  | some (t :: ts) =>
    ename ++ ": " ++ evalue ++ "\n" ++ String.intercalate "\n" (t :: ts)
  | _ => ename ++ ": " ++ evalue

/-- Modelled from the spec (section 4.1, app→host): `execute_result` emits
one item per `data` entry (preserving key order, values UTF-8 encoded);
`stream` and `error` emit exactly one `text/html` item with the rendered
text; `id` is passed through; `metadata` is passed through only for
`execute_result`. -/
def convertToVSCodeCellOutput : ICellOutput → NotebookCellOutput
  | .executeResult id data metadata _ =>
    ⟨id, data.map fun e => ⟨e.1, utf8EncodeText e.2⟩, metadata⟩
  | .stream id _ text =>
    ⟨id, [⟨"text/html", utf8EncodeText (streamText text)⟩], none⟩
  | .error id ename evalue traceback =>
    ⟨id, [⟨"text/html", utf8EncodeText (errorText ename evalue traceback)⟩],
      none⟩

end VSCodeContentManager

/-! ## Notebook document model and the (de)serialization adapter -/

/-- Modelled from the spec: host-side cell kinds. -/
inductive NotebookCellKind where
  | code
  | markup
deriving DecidableEq

/-- Modelled from the spec: a host-side notebook cell with kind, source text
(`value`), language id, outputs and execution order. -/
structure VSNotebookCell where
  kind : NotebookCellKind
  value : String
  languageId : String
  outputs : List NotebookCellOutput
  executionOrder : Nat
deriving DecidableEq

/-- Modelled from the spec: the host-side `custom` metadata envelope holding
the notebook format version. -/
structure NbCustomMetadata where
  nbformat : Nat
  nbformat_minor : Nat
deriving DecidableEq

/-- Modelled from the spec: host-side notebook metadata — an opaque payload
(kernel spec, language info) carried verbatim, plus the `custom` envelope. -/
structure VSNotebookMetadata where
  payload : JsonMap
  custom : NbCustomMetadata
deriving DecidableEq

/-- Modelled from the spec: a host-side notebook document. -/
structure VSNotebookData where
  cells : List VSNotebookCell
  metadata : VSNotebookMetadata
deriving DecidableEq

/-- Modelled from the spec: an app-side notebook cell,
`{ cell_type, source, outputs, execution_count, metadata: { language } }`. -/
structure ADSNotebookCell where
  cell_type : String
  source : String
  outputs : List ICellOutput
  execution_count : Nat
  language : String
deriving DecidableEq

/-- Modelled from the spec: an app-side notebook document with top-level
`nbformat` / `nbformat_minor` fields. -/
structure INotebookContents where
  payload : JsonMap
  nbformat : Nat
  nbformat_minor : Nat
  cells : List ADSNotebookCell
deriving DecidableEq

namespace VSCodeContentManager

/-- Modelled from the spec (section 4.2): host→app mapping of one cell —
fields mapped one-for-one, outputs converted through
`convertToADSCellOutput` with the cell's execution order as the counter. -/
def deserializeCell (c : VSNotebookCell) : ADSNotebookCell :=
  { cell_type := match c.kind with
      | .code => "code"
      | .markup => "markdown"
    source := c.value
    outputs :=
      (c.outputs.map fun o => convertToADSCellOutput o c.executionOrder).flatten
    execution_count := c.executionOrder
    language := c.languageId }

/-- Modelled from the spec (section 4.2): app→host mapping of one cell —
fields mapped one-for-one, outputs converted through
`convertToVSCodeCellOutput`. -/
def serializeCell (c : ADSNotebookCell) : VSNotebookCell :=
  { kind := if c.cell_type = "code" then .code else .markup
    value := c.source
    languageId := c.language
    outputs := c.outputs.map convertToVSCodeCellOutput
    executionOrder := c.execution_count }

/-- Modelled from the spec (section 4.2): host→app document mapping, lifting
`custom.nbformat` / `custom.nbformat_minor` to top-level fields. -/
def deserializeDocument (d : VSNotebookData) : INotebookContents :=
  { payload := d.metadata.payload
    nbformat := d.metadata.custom.nbformat
    nbformat_minor := d.metadata.custom.nbformat_minor
    cells := d.cells.map deserializeCell }

/-- Modelled from the spec (section 4.2): app→host document mapping,
reconstructing the `custom` envelope from the top-level fields. -/
def serializeDocument (d : INotebookContents) : VSNotebookData :=
  { cells := d.cells.map serializeCell
    metadata := { payload := d.payload
                  custom := { nbformat := d.nbformat
                              nbformat_minor := d.nbformat_minor } } }

/-- Modelled from the spec: the wrapped notebook-serializer capability,
`deserialize: bytes → host document` / `serialize: host document → bytes`. -/
structure NotebookSerializer where
  deserializeImpl : List Nat → VSNotebookData
  serializeImpl : VSNotebookData → List Nat

/-- Modelled from the spec (section 4.2): the adapter's deserialize
direction.  The second component records the argument of every invocation of
the underlying capability, so the call count is observable. -/
def deserializeNotebook (ser : NotebookSerializer) (contents : List Nat) :
    INotebookContents × List (List Nat) :=
  (deserializeDocument (ser.deserializeImpl contents), [contents])

/-- Modelled from the spec (section 4.2): the adapter's serialize direction.
The second component records the argument of every invocation of the
underlying capability, so the call count is observable. -/
def serializeNotebook (ser : NotebookSerializer) (notebook : INotebookContents) :
    List Nat × List VSNotebookData :=
  (ser.serializeImpl (serializeDocument notebook), [serializeDocument notebook])

end VSCodeContentManager

/-! ## Query-plan panel

Translated from
`src/sql/workbench/contrib/queryplan2/browser/queryPlan.ts`.  JavaScript
numbers are modelled as rationals where only field arithmetic occurs
(costs), and as reals where `Math.log10` is involved (edge weights).  A
graph-element property value is a string or some other JSON value
(`isString` filters on this). -/

/-- A graph-element property value: either a string or some other value. -/
inductive PropValue where
  | str (s : String)
  | other
deriving DecidableEq

/-- `isString(e.value)` from `vs/base/common/types`. -/
def PropValue.isStringV : PropValue → Bool
  | .str _ => true
  | .other => false

/-- `e.value.toString()`, only ever applied to string values after the
`isString` filter. -/
def PropValue.text : PropValue → String
  | .str s => s
  | .other => ""

/-- `azdata.ExecutionPlanGraphElementProperty`: a name and a value. -/
structure ExecutionPlanGraphElementProperty where
  name : String
  value : PropValue
deriving DecidableEq

/-- A metric entry of a diagram node or edge, as consumed by the external
graph-drawing library. -/
structure DiagramMetric where
  name : String
  value : String
deriving DecidableEq

/-- `azdata.ExecutionPlanEdge`: row count and properties. -/
structure ExecutionPlanEdge where
  rowCount : ℝ
  properties : List ExecutionPlanGraphElementProperty

/-- The edge shape handed to the external graph-drawing library. -/
structure DiagramEdge where
  label : String
  metrics : List DiagramMetric
  weight : ℝ

namespace QueryPlan2

/-- `QueryPlan2.populateProperties`: keep the string-valued properties and
truncate each value to its first 75 characters. -/
def populateProperties (props : List ExecutionPlanGraphElementProperty) :
    List DiagramMetric :=
  (props.filter fun e => e.value.isStringV).map fun e =>
    ⟨e.name, e.value.text.take 75⟩

/-- `QueryPlan2.populateEdges`: empty label, metrics from the edge
properties, and weight `Math.max(0.5, Math.min(0.5 + 0.75 *
Math.log10(edge.rowCount), 6))`. -/
noncomputable def populateEdges (edge : ExecutionPlanEdge) : DiagramEdge :=
  { label := ""
    metrics := populateProperties edge.properties
    weight := max 0.5 (min (0.5 + 0.75 * Real.logb 10 edge.rowCount) 6) }

end QueryPlan2

/-- The state of one displayed plan: the cost fields of its graph root,
and the `relativeCost` field of its `PlanHeader`. -/
structure PlanState where
  subTreeCost : ℚ
  cost : ℚ
  relativeCost : ℚ
deriving DecidableEq

/-- The root cost fields of an `azdata.ExecutionPlanGraph` being added. -/
structure GraphRoot where
  subTreeCost : ℚ
  cost : ℚ
deriving DecidableEq

namespace QueryPlan2View

/-- The `reduce` in `updateRelativeCosts`: the sum over the displayed plans
of `root.subTreeCost + root.cost`. -/
def totalCost (qps : List PlanState) : ℚ :=
  qps.foldl (fun prevCost cg => prevCost + (cg.subTreeCost + cg.cost)) 0

/-- `QueryPlan2View.updateRelativeCosts`: when the total cost is positive,
set every displayed plan's header `relativeCost` to its share of the total,
as a percentage; otherwise do nothing. -/
def updateRelativeCosts (qps : List PlanState) : List PlanState :=
  let sum := totalCost qps
  if 0 < sum then
    qps.map fun qp =>
      { qp with relativeCost := (qp.subTreeCost + qp.cost) / sum * 100 }
  else qps

/-- Appending one plan widget for a newly added graph.  The initial
`relativeCost` of a fresh `PlanHeader` is modelled as `0`. -/
def addGraph (qps : List PlanState) (g : GraphRoot) : List PlanState :=
  qps ++ [{ subTreeCost := g.subTreeCost, cost := g.cost, relativeCost := 0 }]

/-- `QueryPlan2View.addGraphs`: for each new graph, instantiate its widget
and then recompute all relative costs. -/
def addGraphs (qps : List PlanState) (newGraphs : List GraphRoot) :
    List PlanState :=
  newGraphs.foldl (fun st g => updateRelativeCosts (addGraph st g)) qps

end QueryPlan2View

/-! ## Claims about the output converter -/

/-- C1: for every Host Output with N items and every execution counter `c`,
`convertToADSCellOutput` returns a single-element sequence holding one
`execute_result` whose data mapping has exactly N entries keyed by each
item's MIME type with value the UTF-8 decoding of the item's bytes, whose
`execution_count` is `c`, whose `id` is the input's id, and whose metadata
is the input metadata copied through (defaulting to an empty mapping). -/
theorem convertToADSCellOutput_single_executeResult
    (o : NotebookCellOutput) (c : Nat) :
    VSCodeContentManager.convertToADSCellOutput o c =
      [ICellOutput.executeResult o.id
        (o.items.map fun it => (it.mime, utf8DecodeText it.data))
        (some (o.metadata.getD [])) c]
    ∧ (VSCodeContentManager.convertToADSCellOutput o c).length = 1
    ∧ ∀ out ∈ VSCodeContentManager.convertToADSCellOutput o c,
        out.outData.length = o.items.length
        ∧ out.outData.map Prod.fst = o.items.map NotebookCellOutputItem.mime
        ∧ out.outId = o.id := by
  refine ⟨rfl, rfl, ?_⟩
  intro out hout
  simp only [VSCodeContentManager.convertToADSCellOutput,
    List.mem_singleton] at hout
  subst hout
  simp [ICellOutput.outData, ICellOutput.outId]

/-- Witness for C1 at the concrete Host Output of the unit test. -/
theorem convertToADSCellOutput_single_executeResult_witness :
    (ICellOutput.executeResult "1"
        [("text/plain", utf8DecodeText (utf8EncodeText "2"))]
        (some []) 1).outData.length =
      ([⟨"text/plain", utf8EncodeText "2"⟩] :
        List NotebookCellOutputItem).length := by
  have h := (convertToADSCellOutput_single_executeResult
    ⟨"1", [⟨"text/plain", utf8EncodeText "2"⟩], some []⟩ 1).2.2
  exact (h _ (by simp [VSCodeContentManager.convertToADSCellOutput])).1

/-- C2: for every `execute_result` with a data mapping of size N,
`convertToVSCodeCellOutput` returns exactly N Host Output Items, one per
data entry in key order, each with the entry's MIME key and its value
encoded as UTF-8 bytes; `id` and `metadata` are passed through. -/
theorem convertToVSCodeCellOutput_executeResult
    (id : String) (data : JsonMap) (md : Option JsonMap) (ec : Nat) :
    VSCodeContentManager.convertToVSCodeCellOutput
        (.executeResult id data md ec) =
      ⟨id, data.map fun e => ⟨e.1, utf8EncodeText e.2⟩, md⟩
    ∧ (VSCodeContentManager.convertToVSCodeCellOutput
        (.executeResult id data md ec)).items.length = data.length
    ∧ (VSCodeContentManager.convertToVSCodeCellOutput
        (.executeResult id data md ec)).items.map
          (fun it => (it.mime, utf8DecodeText it.data)) = data
    ∧ (VSCodeContentManager.convertToVSCodeCellOutput
        (.executeResult id data md ec)).id = id := by
  refine ⟨rfl, by simp [VSCodeContentManager.convertToVSCodeCellOutput], ?_,
    rfl⟩
  simp only [VSCodeContentManager.convertToVSCodeCellOutput, List.map_map]
  induction data with
  | nil => rfl
  | cons e rest ih => simp [Function.comp, utf8DecodeText_encodeText, ih]

/-- C3: for every `stream` output, `convertToVSCodeCellOutput` returns
exactly one Host Output Item, of MIME type `text/html`, whose data is the
UTF-8 encoding of the stream's text lines concatenated with no separator;
`id` is passed through and `metadata` is undefined. -/
theorem convertToVSCodeCellOutput_stream
    (id nm : String) (text : List String) :
    VSCodeContentManager.convertToVSCodeCellOutput (.stream id nm text) =
      ⟨id, [⟨"text/html",
        utf8EncodeText (VSCodeContentManager.streamText text)⟩], none⟩
    ∧ (VSCodeContentManager.convertToVSCodeCellOutput
        (.stream id nm text)).items.length = 1
    ∧ (VSCodeContentManager.convertToVSCodeCellOutput
        (.stream id nm text)).items.map
          (fun it => (it.mime, utf8DecodeText it.data)) =
        [("text/html", String.join text)]
    ∧ VSCodeContentManager.streamText text = String.join text := by
  refine ⟨rfl, rfl, ?_, rfl⟩
  simp [VSCodeContentManager.convertToVSCodeCellOutput,
    VSCodeContentManager.streamText, utf8DecodeText_encodeText]

/-- C4: for every `error` output, `convertToVSCodeCellOutput` returns
exactly one `text/html` Host Output Item; the rendered text is exactly
`"<ename>: <evalue>"` when the traceback is empty or absent, and with a
non-empty traceback it is that header line followed by the traceback lines
in original order, newline-joined; `id` is passed through and `metadata` is
undefined. -/
theorem convertToVSCodeCellOutput_error
    (id en ev : String) (tb : Option (List String)) :
    VSCodeContentManager.convertToVSCodeCellOutput (.error id en ev tb) =
      ⟨id, [⟨"text/html",
        utf8EncodeText (VSCodeContentManager.errorText en ev tb)⟩], none⟩
    ∧ (VSCodeContentManager.convertToVSCodeCellOutput
        (.error id en ev tb)).items.map
          (fun it => (it.mime, utf8DecodeText it.data)) =
        [("text/html", VSCodeContentManager.errorText en ev tb)]
    ∧ VSCodeContentManager.errorText en ev none = en ++ ": " ++ ev
    ∧ VSCodeContentManager.errorText en ev (some []) = en ++ ": " ++ ev
    ∧ ∀ (t : String) (ts : List String),
        VSCodeContentManager.errorText en ev (some (t :: ts)) =
          en ++ ": " ++ ev ++ "\n" ++ String.intercalate "\n" (t :: ts) := by
  refine ⟨rfl, ?_, rfl, rfl, fun t ts => rfl⟩
  simp [VSCodeContentManager.convertToVSCodeCellOutput,
    utf8DecodeText_encodeText]

/-! ## Claims about the query-plan panel -/

/-- The clamp function as the spec words it: the value bounded below by `lo`
and above by `hi`. -/
noncomputable def clampSpec (x lo hi : ℝ) : ℝ :=
  min (max x lo) hi

/-- C7: for every execution-plan edge with row count `r`, the diagram edge
weight produced by `populateEdges` equals
`clamp(0.5 + 0.75 * log10(r), 0.5, 6)`, i.e. `0.5 + 0.75 * log10(r)`
bounded below by `0.5` and above by `6`. -/
theorem populateEdges_weight_clamped (edge : ExecutionPlanEdge) :
    (QueryPlan2.populateEdges edge).weight =
      clampSpec (0.5 + 0.75 * Real.logb 10 edge.rowCount) 0.5 6
    ∧ 0.5 ≤ (QueryPlan2.populateEdges edge).weight
    ∧ (QueryPlan2.populateEdges edge).weight ≤ 6 := by
  set v : ℝ := 0.5 + 0.75 * Real.logb 10 edge.rowCount with hv
  have hw : (QueryPlan2.populateEdges edge).weight = max 0.5 (min v 6) := rfl
  refine ⟨?_, ?_, ?_⟩
  · rw [hw, clampSpec, min_max_distrib_right]
    have h56 : min (0.5 : ℝ) 6 = 0.5 := by norm_num
    rw [h56, max_comm]
  · rw [hw]
    exact le_max_left _ _
  · rw [hw]
    exact max_le (by norm_num) (min_le_right _ _)

/-- C9: for every property list, `populateProperties` returns one metric per
string-valued property, in order, whose value is the first 75 characters of
the property's value; values of at most 75 characters are unchanged. -/
theorem populateProperties_truncation
    (props : List ExecutionPlanGraphElementProperty) :
    QueryPlan2.populateProperties props =
      (props.filter fun e => e.value.isStringV).map (fun e =>
        ⟨e.name, e.value.text.take 75⟩)
    ∧ (QueryPlan2.populateProperties props).length =
        (props.filter fun e => e.value.isStringV).length
    ∧ (∀ m ∈ QueryPlan2.populateProperties props, m.value.length ≤ 75)
    ∧ (∀ e ∈ props, e.value.isStringV → e.value.text.length ≤ 75 →
        (⟨e.name, e.value.text⟩ : DiagramMetric) ∈
          QueryPlan2.populateProperties props) := by
  refine ⟨rfl, by simp [QueryPlan2.populateProperties], ?_, ?_⟩
  · intro m hm
    simp only [QueryPlan2.populateProperties, List.mem_map] at hm
    obtain ⟨e, -, rfl⟩ := hm
    rw [String.take_eq]
    exact List.length_take_le 75 e.value.text.data
  · intro e he hstr hlen
    have hlen' : e.value.text.data.length ≤ 75 := hlen
    have htake : e.value.text.take 75 = e.value.text := by
      rw [String.take_eq, List.take_of_length_le hlen']
    simp only [QueryPlan2.populateProperties, List.mem_map]
    exact ⟨e, List.mem_filter.2 ⟨he, hstr⟩, by rw [htake]⟩

/-- Witness for C9 at a one-element property list with a short string
value. -/
theorem populateProperties_truncation_witness :
    (⟨"n", "v"⟩ : DiagramMetric) ∈
      QueryPlan2.populateProperties [⟨"n", PropValue.str "v"⟩] := by
  have h := (populateProperties_truncation [⟨"n", PropValue.str "v"⟩]).2.2.2
  exact h ⟨"n", PropValue.str "v"⟩ (by simp) rfl (by decide)

/-- C10: when the summed cost over all displayed plans is zero,
`updateRelativeCosts` leaves the plan list — in particular every header's
`relativeCost` — unchanged: the zero sum is never divided by. -/
theorem updateRelativeCosts_zero_sum_unchanged (qps : List PlanState)
    (h : QueryPlan2View.totalCost qps = 0) :
    QueryPlan2View.updateRelativeCosts qps = qps := by
  simp [QueryPlan2View.updateRelativeCosts, h]

/-- Witness for C10 at a single plan with all-zero costs. -/
theorem updateRelativeCosts_zero_sum_unchanged_witness :
    QueryPlan2View.updateRelativeCosts
        [{ subTreeCost := 0, cost := 0, relativeCost := 5 }] =
      [{ subTreeCost := 0, cost := 0, relativeCost := 5 }] :=
  updateRelativeCosts_zero_sum_unchanged _
    (by norm_num [QueryPlan2View.totalCost])

namespace QueryPlan2View

theorem totalCost_eq_sum (qps : List PlanState) :
    totalCost qps = (qps.map fun p => p.subTreeCost + p.cost).sum := by
  suffices h : ∀ a : ℚ, qps.foldl (fun prevCost cg =>
      prevCost + (cg.subTreeCost + cg.cost)) a =
      a + (qps.map fun p => p.subTreeCost + p.cost).sum by
    simpa [totalCost] using h 0
  induction qps with
  | nil => simp
  | cons p rest ih =>
    intro a
    simp [ih, add_assoc]

theorem totalCost_updateRelativeCosts (qps : List PlanState) :
    totalCost (updateRelativeCosts qps) = totalCost qps := by
  by_cases h : 0 < totalCost qps
  · simp only [updateRelativeCosts, if_pos h]
    rw [totalCost_eq_sum, totalCost_eq_sum qps, List.map_map]
    rfl
  · simp [updateRelativeCosts, h]

theorem updateRelativeCosts_sets_share (qps : List PlanState)
    (h : 0 < totalCost qps) :
    ∀ p ∈ updateRelativeCosts qps,
      p.relativeCost = (p.subTreeCost + p.cost) / totalCost qps * 100 := by
  intro p hp
  simp only [updateRelativeCosts, if_pos h, List.mem_map] at hp
  obtain ⟨q, -, rfl⟩ := hp
  rfl

end QueryPlan2View

/-- C8: whenever graphs are added to the query-plan view and the summed
`root.subTreeCost + root.cost` over all displayed plans is positive, every
displayed plan's header `relativeCost` ends up equal to that plan's
`(root.subTreeCost + root.cost)` divided by the sum, times 100. -/
theorem addGraphs_sets_relative_costs (qps : List PlanState)
    (gs : List GraphRoot) (hne : gs ≠ [])
    (hpos : 0 < QueryPlan2View.totalCost (QueryPlan2View.addGraphs qps gs)) :
    ∀ p ∈ QueryPlan2View.addGraphs qps gs,
      p.relativeCost = (p.subTreeCost + p.cost) /
        QueryPlan2View.totalCost (QueryPlan2View.addGraphs qps gs) * 100 := by
  induction gs generalizing qps with
  | nil => exact absurd rfl hne
  | cons g gs ih =>
    have hstep : QueryPlan2View.addGraphs qps (g :: gs) =
        QueryPlan2View.addGraphs
          (QueryPlan2View.updateRelativeCosts (QueryPlan2View.addGraph qps g))
          gs := rfl
    cases gs with
    | nil =>
      rw [hstep] at hpos ⊢
      have hbase : QueryPlan2View.addGraphs
          (QueryPlan2View.updateRelativeCosts (QueryPlan2View.addGraph qps g))
          [] =
          QueryPlan2View.updateRelativeCosts (QueryPlan2View.addGraph qps g) :=
        rfl
      rw [hbase] at hpos ⊢
      rw [QueryPlan2View.totalCost_updateRelativeCosts] at hpos ⊢
      exact QueryPlan2View.updateRelativeCosts_sets_share _ hpos
    | cons g2 gs2 =>
      rw [hstep] at hpos ⊢
      exact ih _ (by simp) hpos

/-- Witness for C8: adding one graph with costs `1` and `1` to an empty view
gives it a relative cost of `(1 + 1) / 2 * 100 = 100`. -/
theorem addGraphs_sets_relative_costs_witness :
    ({ subTreeCost := 1, cost := 1, relativeCost := 100 } :
        PlanState).relativeCost =
      ((1 : ℚ) + 1) /
        QueryPlan2View.totalCost
          (QueryPlan2View.addGraphs [] [{ subTreeCost := 1, cost := 1 }]) *
        100 := by
  have hmem : ({ subTreeCost := 1, cost := 1, relativeCost := 100 } :
      PlanState) ∈
      QueryPlan2View.addGraphs [] [{ subTreeCost := 1, cost := 1 }] := by
    norm_num [QueryPlan2View.addGraphs, QueryPlan2View.addGraph,
      QueryPlan2View.updateRelativeCosts, QueryPlan2View.totalCost]
  exact addGraphs_sets_relative_costs [] [{ subTreeCost := 1, cost := 1 }]
    (by simp)
    (by norm_num [QueryPlan2View.addGraphs, QueryPlan2View.addGraph,
      QueryPlan2View.updateRelativeCosts, QueryPlan2View.totalCost])
    _ hmem

/-! ## Claims about the document-level adapter -/

/-- C6: every invocation of the document-level adapter invokes the wrapped
serializer capability exactly once — the recorded call trace of one adapter
call is a single-element list, with no retry and no caching. -/
theorem contentManager_single_underlying_call
    (ser : VSCodeContentManager.NotebookSerializer) (contents : List Nat)
    (notebook : INotebookContents) :
    (VSCodeContentManager.deserializeNotebook ser contents).2 = [contents]
    ∧ (VSCodeContentManager.deserializeNotebook ser contents).2.length = 1
    ∧ (VSCodeContentManager.serializeNotebook ser notebook).2 =
        [VSCodeContentManager.serializeDocument notebook]
    ∧ (VSCodeContentManager.serializeNotebook ser notebook).2.length = 1 :=
  ⟨rfl, rfl, rfl, rfl⟩

namespace VSCodeContentManager

/-- Round-trip observation of an app-side cell: source text, language id,
execution order and per-output `(id, data)`. -/
def adsCellObs (c : ADSNotebookCell) :
    String × String × Nat × List (String × JsonMap) :=
  (c.source, c.language, c.execution_count,
    c.outputs.map fun o => (o.outId, o.outData))

/-- Round-trip observation of a host-side cell: source text, language id,
execution order and per-output `(id, items)`. -/
def vsCellObs (c : VSNotebookCell) :
    String × String × Nat × List (String × List (String × List Nat)) :=
  (c.value, c.languageId, c.executionOrder,
    c.outputs.map fun o => (o.id, o.items.map fun it => (it.mime, it.data)))

/-- Well-formedness of an app-side cell for round-tripping: every output is
an `execute_result` whose `execution_count` agrees with the cell's. -/
def ADSWellFormedCell (c : ADSNotebookCell) : Prop :=
  ∀ o ∈ c.outputs, ∃ i dm md,
    o = ICellOutput.executeResult i dm md c.execution_count

/-- Well-formedness of an app-side document for round-tripping. -/
def ADSWellFormed (d : INotebookContents) : Prop :=
  ∀ c ∈ d.cells, ADSWellFormedCell c

/-- Well-formedness of a host-side document for round-tripping: every output
item's byte buffer is valid UTF-8, i.e. re-encoding its decoding restores
the buffer. -/
def VSWellFormed (v : VSNotebookData) : Prop :=
  ∀ c ∈ v.cells, ∀ o ∈ c.outputs, ∀ it ∈ o.items,
    utf8EncodeText (utf8DecodeText it.data) = it.data

theorem flatten_map_singleton {α β : Type} (f : α → β) (l : List α) :
    (l.map fun x => [f x]).flatten = l.map f := by
  induction l with
  | nil => rfl
  | cons x xs ih => simp [ih]

theorem jsonMap_decode_encode (dm : JsonMap) :
    dm.map (fun e => (e.1, utf8DecodeText (utf8EncodeText e.2))) = dm := by
  induction dm with
  | nil => rfl
  | cons e rest ih => simp [utf8DecodeText_encodeText, ih]

theorem adsCellObs_roundTrip (c : ADSNotebookCell)
    (hc : ADSWellFormedCell c) :
    adsCellObs (deserializeCell (serializeCell c)) = adsCellObs c := by
  have houts : (deserializeCell (serializeCell c)).outputs =
      (c.outputs.map convertToVSCodeCellOutput).map fun o =>
        ICellOutput.executeResult o.id
          (o.items.map fun it => (it.mime, utf8DecodeText it.data))
          (some (o.metadata.getD [])) c.execution_count := by
    show ((c.outputs.map convertToVSCodeCellOutput).map fun o =>
        convertToADSCellOutput o c.execution_count).flatten = _
    exact flatten_map_singleton _ _
  simp only [adsCellObs, houts, List.map_map, Prod.mk.injEq]
  refine ⟨rfl, rfl, rfl, ?_⟩
  apply List.map_congr_left
  intro o ho
  obtain ⟨i, dm, md, rfl⟩ := hc o ho
  simp only [Function.comp, convertToVSCodeCellOutput, List.map_map,
    ICellOutput.outId, ICellOutput.outData, Prod.mk.injEq]
  refine ⟨trivial, ?_⟩
  exact jsonMap_decode_encode dm

theorem vsCellObs_roundTrip (c : VSNotebookCell)
    (hc : ∀ o ∈ c.outputs, ∀ it ∈ o.items,
      utf8EncodeText (utf8DecodeText it.data) = it.data) :
    vsCellObs (serializeCell (deserializeCell c)) = vsCellObs c := by
  have houts : (deserializeCell c).outputs =
      c.outputs.map fun o =>
        ICellOutput.executeResult o.id
          (o.items.map fun it => (it.mime, utf8DecodeText it.data))
          (some (o.metadata.getD [])) c.executionOrder := by
    show (c.outputs.map fun o =>
        convertToADSCellOutput o c.executionOrder).flatten = _
    exact flatten_map_singleton _ _
  simp only [vsCellObs, serializeCell, houts, List.map_map, Prod.mk.injEq]
  refine ⟨rfl, rfl, rfl, ?_⟩
  apply List.map_congr_left
  intro o ho
  simp only [Function.comp, convertToVSCodeCellOutput, List.map_map,
    Prod.mk.injEq]
  refine ⟨trivial, ?_⟩
  apply List.map_congr_left
  intro it hit
  simp only [Function.comp]
  rw [hc o ho it hit]

end VSCodeContentManager

/-- C5: for well-formed documents, a document-level round trip — app-side to
host-side and back, and host-side to app-side and back — preserves each
cell's source text, language id, execution order and per-output data, while
the host-side `custom.nbformat` / `custom.nbformat_minor` envelope is split
into and reconstructed from the app-side top-level `nbformat` /
`nbformat_minor` fields. -/
theorem notebook_roundTrip_preserves (d : INotebookContents)
    (v : VSNotebookData) (hd : VSCodeContentManager.ADSWellFormed d)
    (hv : VSCodeContentManager.VSWellFormed v) :
    ((VSCodeContentManager.deserializeDocument
          (VSCodeContentManager.serializeDocument d)).cells.map
        VSCodeContentManager.adsCellObs =
          d.cells.map VSCodeContentManager.adsCellObs
      ∧ (VSCodeContentManager.deserializeDocument
          (VSCodeContentManager.serializeDocument d)).nbformat = d.nbformat
      ∧ (VSCodeContentManager.deserializeDocument
          (VSCodeContentManager.serializeDocument d)).nbformat_minor =
          d.nbformat_minor
      ∧ (VSCodeContentManager.deserializeDocument
          (VSCodeContentManager.serializeDocument d)).payload = d.payload)
    ∧ ((VSCodeContentManager.serializeDocument
          (VSCodeContentManager.deserializeDocument v)).cells.map
        VSCodeContentManager.vsCellObs =
          v.cells.map VSCodeContentManager.vsCellObs
      ∧ (VSCodeContentManager.serializeDocument
          (VSCodeContentManager.deserializeDocument v)).metadata =
          v.metadata) := by
  refine ⟨⟨?_, rfl, rfl, rfl⟩, ?_, rfl⟩
  · show ((d.cells.map VSCodeContentManager.serializeCell).map
        VSCodeContentManager.deserializeCell).map
        VSCodeContentManager.adsCellObs = _
    rw [List.map_map, List.map_map]
    apply List.map_congr_left
    intro c hc
    exact VSCodeContentManager.adsCellObs_roundTrip c (hd c hc)
  · show ((v.cells.map VSCodeContentManager.deserializeCell).map
        VSCodeContentManager.serializeCell).map
        VSCodeContentManager.vsCellObs = _
    rw [List.map_map, List.map_map]
    apply List.map_congr_left
    intro c hc
    exact VSCodeContentManager.vsCellObs_roundTrip c (hv c hc)

/-- Witness for C5 at the concrete one-cell documents of the unit test. -/
theorem notebook_roundTrip_preserves_witness :
    (VSCodeContentManager.deserializeDocument
        (VSCodeContentManager.serializeDocument
          ⟨[("kernelspec", "python3")], 4, 2,
            [⟨"code", "1+1",
              [ICellOutput.executeResult "1" [("text/plain", "2")]
                (some []) 1], 1, "python"⟩]⟩)).cells.map
      VSCodeContentManager.adsCellObs =
      (⟨[("kernelspec", "python3")], 4, 2,
        [⟨"code", "1+1",
          [ICellOutput.executeResult "1" [("text/plain", "2")]
            (some []) 1], 1, "python"⟩]⟩ : INotebookContents).cells.map
        VSCodeContentManager.adsCellObs :=
  (notebook_roundTrip_preserves
    ⟨[("kernelspec", "python3")], 4, 2,
      [⟨"code", "1+1",
        [ICellOutput.executeResult "1" [("text/plain", "2")]
          (some []) 1], 1, "python"⟩]⟩
    ⟨[⟨.code, "1+1", "python",
        [⟨"1", [⟨"text/plain", utf8EncodeText "2"⟩], some []⟩], 1⟩],
      ⟨[("kernelspec", "python3")], ⟨4, 2⟩⟩⟩
    (by
      intro c hc o ho
      simp only [List.mem_singleton] at hc
      subst hc
      simp only [List.mem_singleton] at ho
      subst ho
      exact ⟨"1", [("text/plain", "2")], some [], rfl⟩)
    (by
      intro c hc o ho it hit
      simp only [List.mem_singleton] at hc
      subst hc
      simp only [List.mem_singleton] at ho
      subst ho
      simp only [List.mem_singleton] at hit
      subst hit
      show utf8EncodeText (utf8DecodeText (utf8EncodeText "2")) =
        utf8EncodeText "2"
      rw [utf8DecodeText_encodeText])).1.1
